import Mathlib

/-!
Shallow embedding of the core of the `texas` repository (a No-Limit Texas
Holdem simulator): the card model (`card.py`, `suit.py`), the hand evaluator
(`handEvaluator.py`), and the betting engine (`texasHoldem.py`, `player.py`).

Python integers are embedded as `Int` (chip counts, wagers, pots), Python
`//` and `%` as `Int.fdiv` / `Int.fmod` (floor division), and the iteration
order of Python dicts (insertion order, i.e. first-occurrence order of the
keys) is modelled explicitly by `pyKeys`.
-/

namespace Texas

/-- Suits, from suit.py (four enumeration values). -/
inductive Suit where
  | hearts
  | diamonds
  | clubs
  | spades
deriving DecidableEq

/-- A playing card, from card.py.  Modelled from the spec: rank.py is absent
from `src/`; per spec section 3 a rank is an ordinal value in 2..14 with
J=11, Q=12, K=13, A=14, and the evaluator only ever consumes `rank.value`,
so a rank is embedded directly as that value. -/
structure Card where
  rank : Nat
  suit : Suit
deriving DecidableEq

/-- Keys of a Python dict built by repeated `d[k] = d.get(k, 0) + 1`
insertions over a list: each key once, in first-occurrence order.  Models the
iteration order of `rank_count` and `suit_count` in
`HandEvaluator.evaluate_hand` (handEvaluator.py lines 27-32). -/
def pyKeys {α : Type} [DecidableEq α] : List α → List α
  | [] => []
  | a :: l => a :: (pyKeys l).filter (fun b => decide (b ≠ a))

/-- Insert a value into a descending-sorted list of naturals. -/
def insertDesc (a : Nat) : List Nat → List Nat
  | [] => [a]
  | b :: l => if b ≤ a then a :: b :: l else b :: insertDesc a l

/-- Descending insertion sort; models Python `sort(reverse=True)` /
`sorted(-, reverse=True)` on rank values. -/
def sortDesc (l : List Nat) : List Nat := l.foldr insertDesc []

/-- Number of cards of rank `r` (`rank_count[r]`, handEvaluator.py line 31). -/
def rankCount (cards : List Card) (r : Nat) : Nat := (cards.map Card.rank).count r

/-- Number of cards of suit `s` (`suit_count[s]`, handEvaluator.py line 32). -/
def suitCount (cards : List Card) (s : Suit) : Nat := (cards.map Card.suit).count s

/-- The keys of `rank_count`, in Python dict (first-occurrence) order. -/
def rankKeys (cards : List Card) : List Nat := pyKeys (cards.map Card.rank)

/-- The keys of `suit_count`, in Python dict (first-occurrence) order. -/
def suitKeys (cards : List Card) : List Suit := pyKeys (cards.map Card.suit)

/-- First suit (in dict order) holding at least five cards
(handEvaluator.py lines 34-39); at most one suit can qualify for inputs of
at most nine cards, but the source scans in insertion order. -/
def flushSuit (cards : List Card) : Option Suit :=
  (suitKeys cards).find? (fun s => decide (5 ≤ suitCount cards s))

/-- `sorted(set(ranks), reverse=True)` (handEvaluator.py line 45): the
distinct rank values in descending order. -/
def sortedRanks (cards : List Card) : List Nat := sortDesc (rankKeys cards)

/-- The wheel test, handEvaluator.py lines 48-54: A,2,3,4,5 all present
gives a straight with high card 5. -/
def wheelHigh (cards : List Card) : Option Nat :=
  if 14 ∈ sortedRanks cards ∧ 2 ∈ sortedRanks cards ∧ 3 ∈ sortedRanks cards ∧
      4 ∈ sortedRanks cards ∧ 5 ∈ sortedRanks cards then
    some 5
  else none

/-- The ordinary straight scan, handEvaluator.py lines 56-60: the first
(highest) window of five consecutive values among the distinct descending
ranks.  Subtraction is on `Nat`, which agrees with Python here because the
list is descending, so `sr[i] - sr[i+4]` is never negative. -/
def normalStraight (cards : List Card) : Option Nat :=
  ((List.range ((sortedRanks cards).length - 4)).find? (fun i =>
      decide ((sortedRanks cards).getD i 0 - (sortedRanks cards).getD (i + 4) 0 = 4))).map
    (fun i => (sortedRanks cards).getD i 0)

/-- Final value of `straight_high`: the wheel is computed first and the
ordinary-straight loop overrides it when it fires (handEvaluator.py 48-60). -/
def straightHigh (cards : List Card) : Option Nat :=
  match normalStraight cards with
  | some h => some h
  | none => wheelHigh cards

/-- `straight_flush_cards` (handEvaluator.py lines 64-65): the flush-suit
cards whose rank lies in `[straight_high - 4, straight_high]`.  For the wheel
(`straight_high = 5`) the window is `[1, 5]`, which excludes the Ace stored
as 14 - faithfully reproducing the source. -/
def straightFlushCards (cards : List Card) (s : Suit) (h : Nat) : List Card :=
  (cards.filter (fun c => decide (c.suit = s))).filter
    (fun c => decide (c.rank ≤ h) && decide (h - 4 ≤ c.rank))

/-- The straight-flush branch (handEvaluator.py lines 62-70): category 9 for
an ace-high straight flush, else category 8; `none` when the branch falls
through to the four-of-a-kind logic. -/
def sfResult (cards : List Card) : Option (Nat × List Nat) :=
  match flushSuit cards, straightHigh cards with
  | some s, some h =>
      if 5 ≤ (straightFlushCards cards s h).length then
        if h = 14 then some (9, [h]) else some (8, [h])
      else none
  | _, _ => none

/-- First rank (dict order) with exactly four cards (handEvaluator.py 73-77);
unique for inputs of at most seven cards.  Rank values are 2..14, so the
Python truthiness test `if four_of_a_kind:` is presence of the option. -/
def fourOfAKind (cards : List Card) : Option Nat :=
  (rankKeys cards).find? (fun r => decide (rankCount cards r = 4))

/-- `three_of_a_kind` (handEvaluator.py lines 85-91): the loop overwrites on
every rank with count 3 and never breaks, so the LAST such dict key wins -
this is the source of the order sensitivity refuted in claim C4. -/
def threeOfAKind (cards : List Card) : Option Nat :=
  (rankKeys cards).foldl (fun acc r => if rankCount cards r = 3 then some r else acc) none

/-- `pairs` after the `pairs.sort(reverse=True)` on line 93: the ranks with
exactly two cards, in descending order. -/
def pairsList (cards : List Card) : List Nat :=
  sortDesc ((rankKeys cards).filter (fun r => decide (rankCount cards r = 2)))

/-- Kickers drawn from the dict keys excluding one rank value, descending
(handEvaluator.py lines 80-81, 110-111, 123-124). -/
def kickersExcept (cards : List Card) (x : Nat) : List Nat :=
  sortDesc ((rankKeys cards).filter (fun r => decide (r ≠ x)))

/-- Two-pair kickers: dict keys not among the top two pairs, descending
(handEvaluator.py line 117). -/
def twoPairKickers (cards : List Card) : List Nat :=
  sortDesc ((rankKeys cards).filter (fun r => decide (r ∉ (pairsList cards).take 2)))

/-- Flush kickers: the flush-suit card ranks, descending
(handEvaluator.py lines 100-101). -/
def flushRanks (cards : List Card) (s : Suit) : List Nat :=
  sortDesc ((cards.filter (fun c => decide (c.suit = s))).map Card.rank)

/-- All card ranks descending, for the high-card branch
(handEvaluator.py line 128). -/
def highRanks (cards : List Card) : List Nat := sortDesc (cards.map Card.rank)

/-- HandEvaluator.evaluate_hand (handEvaluator.py lines 10-129): maps a card
list to a `(category, kicker list)` score.  The branch order is the priority chain of the source: straight flush, quads, full house, flush, straight, trips,
two pair, pair, high card; fewer than five cards scores `(0, [])`. -/
def evaluateHand (cards : List Card) : Nat × List Nat :=
  if cards.length < 5 then (0, [])
  else
    match sfResult cards with
    | some res => res
    | none =>
      match fourOfAKind cards with
      | some q => (7, q :: (kickersExcept cards q).take 1)
      | none =>
        match threeOfAKind cards, pairsList cards with
        | some t, p :: _ => (6, [t, p])
        | _, _ =>
          match flushSuit cards with
          | some s => (5, (flushRanks cards s).take 5)
          | none =>
            match straightHigh cards with
            | some h => (4, [h])
            | none =>
              match threeOfAKind cards with
              | some t => (3, t :: (kickersExcept cards t).take 2)
              | none =>
                match pairsList cards with
                | p1 :: p2 :: _ => (2, [p1, p2] ++ (twoPairKickers cards).take 1)
                | [p1] => (1, p1 :: (kickersExcept cards p1).take 3)
                | [] => (0, (highRanks cards).take 5)

/-- Kicker comparison of HandEvaluator.compare_hands (handEvaluator.py lines
152-159): element-wise over `zip`, which stops at the shorter list; ties
after exhaustion yield 0. -/
def compareKickers : List Nat → List Nat → Int
  | k1 :: t1, k2 :: t2 =>
      if k2 < k1 then 1 else if k1 < k2 then -1 else compareKickers t1 t2
  | _, _ => 0

/-- HandEvaluator.compare_hands (handEvaluator.py lines 131-159): category
first, then kickers; 1 when the first hand is stronger, -1 when weaker,
0 on a tie. -/
def compareHands (h1 h2 : Nat × List Nat) : Int :=
  if h2.1 < h1.1 then 1
  else if h1.1 < h2.1 then -1
  else compareKickers h1.2 h2.2

/-- A seat, from player.py lines 9-25: chip stack, current-street wager, and
the folded / all-in flags (name and hole cards are irrelevant to the
embedded claims). -/
structure Player where
  chips : Int
  current_bet : Int
  folded : Bool
  all_in : Bool
deriving DecidableEq

instance : Inhabited Player := ⟨⟨0, 0, false, false⟩⟩

/-- Player.bet (player.py lines 34-52): the actual bet is capped at the
stack, chips and current wager are adjusted, and the seat is flagged all-in
exactly when its stack reaches zero.  Returns (actual amount, new seat). -/
def Player.bet (p : Player) (amount : Int) : Int × Player :=
  let actual := min amount p.chips
  let p1 : Player := { p with chips := p.chips - actual, current_bet := p.current_bet + actual }
  (actual, if p1.chips = 0 then { p1 with all_in := true } else p1)

/-- Player actions, from action.py. -/
inductive Action where
  | fold
  | check
  | call
  | raise
  | all_in
deriving DecidableEq

/-- The engine state owned by TexasHoldem (texasHoldem.py lines 22-30):
seats, pot, current bet, minimum raise, blind sizes, dealer position. -/
structure GameState where
  players : List Player
  pot : Int
  current_bet : Int
  min_raise : Int
  small_blind : Int
  big_blind : Int
  dealer_pos : Nat
deriving DecidableEq

/-- Replace the seat at an index by applying `f` (models in-place mutation of
`self.players[i]`); out-of-range indices leave the list unchanged. -/
def updateAt : List Player → Nat → (Player → Player) → List Player
  | [], _, _ => []
  | p :: ps, 0, f => f p :: ps
  | p :: ps, Nat.succ n, f => p :: updateAt ps n f

/-- Total chips currently sitting in the stacks of all seats. -/
def sumChips (ps : List Player) : Int := (ps.map Player.chips).sum

/-- TexasHoldem._execute_action (texasHoldem.py lines 173-222) for the seat
at index `i`: fold marks the seat folded; an illegal check (wager below the
table bet) is converted to a fold; call moves the capped call amount; a
raise whose total does not clear the table bet is downgraded to a call,
otherwise wager, pot, current bet and min raise are updated; all-in commits
the whole stack and, when it beats the table bet, updates the current bet
BEFORE recomputing the minimum raise (`total_bet - self.current_bet`). -/
def executeAction (g : GameState) (i : Nat) (a : Action) (amount : Int) : GameState :=
  let p := g.players.getD i default
  match a with
  | .fold => { g with players := updateAt g.players i (fun q => { q with folded := true }) }
  | .check =>
      if p.current_bet < g.current_bet then
        { g with players := updateAt g.players i (fun q => { q with folded := true }) }
      else g
  | .call =>
      let r := p.bet (g.current_bet - p.current_bet)
      { g with players := updateAt g.players i (fun _ => r.2), pot := g.pot + r.1 }
  | .raise =>
      let total_bet := p.current_bet + amount
      if total_bet ≤ g.current_bet then
        let r := p.bet (g.current_bet - p.current_bet)
        { g with players := updateAt g.players i (fun _ => r.2), pot := g.pot + r.1 }
      else
        let r := p.bet amount
        { g with players := updateAt g.players i (fun _ => r.2), pot := g.pot + r.1,
                 current_bet := total_bet, min_raise := amount }
  | .all_in =>
      let all_in_amount := p.chips
      let r := p.bet all_in_amount
      let g1 := { g with players := updateAt g.players i (fun _ => r.2),
                         pot := g.pot + all_in_amount }
      let total_bet := r.2.current_bet
      if g1.current_bet < total_bet then
        let g2 := { g1 with current_bet := total_bet }
        { g2 with min_raise := total_bet - g2.current_bet }
      else g1

/-- TexasHoldem._post_blinds (texasHoldem.py lines 73-92): the seat after the
dealer posts the small blind, the next seat the big blind, each capped by
Player.bet; `self.current_bet` is assigned the small-blind posting and then
OVERWRITTEN by the big-blind posting. -/
def postBlinds (g : GameState) : GameState :=
  let n := g.players.length
  let sbPos := (g.dealer_pos + 1) % n
  let bbPos := (g.dealer_pos + 2) % n
  let r1 := (g.players.getD sbPos default).bet g.small_blind
  let g1 := { g with players := updateAt g.players sbPos (fun _ => r1.2),
                     pot := g.pot + r1.1, current_bet := r1.1 }
  let r2 := (g1.players.getD bbPos default).bet g.big_blind
  { g1 with players := updateAt g1.players bbPos (fun _ => r2.2),
            pot := g1.pot + r2.1, current_bet := r2.1 }

/-- The enumerate loop of TexasHoldem._distribute_pot (texasHoldem.py lines
274-276): winner `w` at enumeration index `i` receives
`share + (1 if i < remainder else 0)` chips. -/
def payWinners (share rem : Int) : List Player → List Nat → Nat → List Player
  | ps, [], _ => ps
  | ps, w :: ws, i =>
      payWinners share rem
        (updateAt ps w (fun p =>
          { p with chips := p.chips + (share + if (i : Int) < rem then 1 else 0) }))
        ws (i + 1)

/-- TexasHoldem._distribute_pot (texasHoldem.py lines 264-279); winners are
seat indices.  With an empty winner list the method only logs and RETURNS
EARLY, leaving the pot untouched; otherwise the pot is floor-divided among
the winners (Python `//` and `%` are `Int.fdiv` / `Int.fmod`) and then set
to zero. -/
def distributePot (g : GameState) (winners : List Nat) : GameState :=
  if winners.isEmpty then g
  else
    let share := Int.fdiv g.pot winners.length
    let rem := Int.fmod g.pot winners.length
    { g with players := payWinners share rem g.players winners 0, pot := 0 }

/-- A sequence of seat decisions applied through the engine: each event is
(seat index, action, amount).  Used to quantify over the betting activity of
a whole hand. -/
def applyEvents (g : GameState) : List (Nat × Action × Int) → GameState
  | [] => g
  | e :: rest => applyEvents (executeAction g e.1 e.2.1 e.2.2) rest

/-- The loop-local state of TexasHoldem._betting_round (texasHoldem.py lines
134-137): engine state, cursor, iteration counter, last aggressor. -/
structure RoundState where
  g : GameState
  current_pos : Nat
  actions_taken : Nat
  last_raiser : Option Nat
deriving DecidableEq

/-- The while-loop guard of _betting_round (texasHoldem.py line 139):
`actions_taken < len(players) or (last_raiser is not None and
current_pos != last_raiser)`. -/
def whileCond (n : Nat) (s : RoundState) : Bool :=
  decide (s.actions_taken < n) ||
    (match s.last_raiser with
     | none => false
     | some lr => decide (s.current_pos ≠ lr))

/-- One iteration of the _betting_round loop (texasHoldem.py lines 139-167).
The decision policy of the seat is abstracted as a map `dec` from the iteration
counter (`actions_taken`, which increments once per iteration) to the chosen
(action, amount); folded and all-in seats are skipped; line 163-164 records
the seat as `last_raiser` after EVERY RAISE or ALL_IN action, whether or not
it actually raised the current bet. -/
def roundStep (dec : Nat → Action × Int) (n : Nat) (s : RoundState) : RoundState :=
  if (s.g.players.getD s.current_pos default).folded = false ∧
      (s.g.players.getD s.current_pos default).all_in = false then
    { g := executeAction s.g s.current_pos (dec s.actions_taken).1 (dec s.actions_taken).2,
      current_pos := (s.current_pos + 1) % n,
      actions_taken := s.actions_taken + 1,
      last_raiser :=
        if (dec s.actions_taken).1 = Action.raise ∨
            (dec s.actions_taken).1 = Action.all_in then
          some s.current_pos
        else s.last_raiser }
  else
    { s with current_pos := (s.current_pos + 1) % n, actions_taken := s.actions_taken + 1 }

/-- Entry state of _betting_round (texasHoldem.py lines 127-137): every
street wager of every non-folded seat is reset to 0, the cursor starts at `start`,
no action has been taken and there is no last aggressor. -/
def initRound (g : GameState) (start : Nat) : RoundState :=
  { g := { g with players :=
             g.players.map (fun p => if p.folded then p else { p with current_bet := 0 }) },
    current_pos := start, actions_taken := 0, last_raiser := none }

/-- `k` iterations of the betting-round loop body. -/
def iterRound (dec : Nat → Action × Int) (n : Nat) (s : RoundState) : Nat → RoundState
  | 0 => s
  | k + 1 => roundStep dec n (iterRound dec n s k)

/-- Fuelled execution of the full while loop; returns the final state and
the number of iterations executed. -/
def runRound (dec : Nat → Action × Int) (n : Nat) : Nat → RoundState → RoundState × Nat
  | 0, s => (s, 0)
  | fuel + 1, s =>
      if whileCond n s then
        let r := runRound dec n fuel (roundStep dec n s)
        (r.1, r.2 + 1)
      else (s, 0)

/-- Whether loop iteration `k` executes a RAISE or ALL_IN action by an active
seat - exactly the situations in which texasHoldem.py lines 163-164 record a
new `last_raiser`. -/
def aggrAt (dec : Nat → Action × Int) (n : Nat) (s0 : RoundState) (k : Nat) : Bool :=
  let s := iterRound dec n s0 k
  let p := s.g.players.getD s.current_pos default
  decide (p.folded = false ∧ p.all_in = false) &&
    decide ((dec s.actions_taken).1 = Action.raise ∨ (dec s.actions_taken).1 = Action.all_in)

/-- Royal flush in spades: A K Q J 10 suited (claim C1). -/
def royalFlush : List Card :=
  [⟨14, .spades⟩, ⟨13, .spades⟩, ⟨12, .spades⟩, ⟨11, .spades⟩, ⟨10, .spades⟩]

/-- Suited wheel: A 2 3 4 5 of diamonds (claim C1). -/
def suitedWheel : List Card :=
  [⟨14, .diamonds⟩, ⟨2, .diamonds⟩, ⟨3, .diamonds⟩, ⟨4, .diamonds⟩, ⟨5, .diamonds⟩]

/-- Offsuit wheel: A 2 3 4 5 with a non-diamond deuce (claim C1). -/
def offsuitWheel : List Card :=
  [⟨14, .diamonds⟩, ⟨2, .hearts⟩, ⟨3, .diamonds⟩, ⟨4, .diamonds⟩, ⟨5, .diamonds⟩]

/-- Six cards holding two three-of-a-kinds, aces first (claim C4). -/
def twoTripsA : List Card :=
  [⟨14, .hearts⟩, ⟨14, .diamonds⟩, ⟨14, .spades⟩, ⟨13, .hearts⟩, ⟨13, .diamonds⟩, ⟨13, .spades⟩]

/-- The same six cards with the kings first (claim C4). -/
def twoTripsB : List Card :=
  [⟨13, .hearts⟩, ⟨13, .diamonds⟩, ⟨13, .spades⟩, ⟨14, .hearts⟩, ⟨14, .diamonds⟩, ⟨14, .spades⟩]

/-- Engine state for the claim C3 counterexample: three seats, seat 1
short-stacked with 15 chips, table bet 20 (a big-blind-sized bet is
outstanding), dealer 0 so the round cursor starts at seat 0. -/
def g3 : GameState :=
  { players := [⟨1000, 0, false, false⟩, ⟨15, 0, false, false⟩, ⟨1000, 0, false, false⟩],
    pot := 60, current_bet := 20, min_raise := 20,
    small_blind := 10, big_blind := 20, dealer_pos := 0 }

/-- Decision trace for the claim C3 counterexample: seat 0 calls, seat 1
goes all-in for LESS than the table bet (a calling all-in), seat 2 calls,
then seat 0 checks; no decision ever raises the table bet. -/
def dec3 : Nat → Action × Int
  | 0 => (.call, 0)
  | 1 => (.all_in, 0)
  | 2 => (.call, 0)
  | _ => (.check, 0)

/-- All-check decision trace (used to witness round termination after one
full pass in the no-aggressor case). -/
def decCheck : Nat → Action × Int := fun _ => (.check, 0)

/-- Two-seat engine state with no outstanding bet (checks are legal). -/
def gW : GameState :=
  { players := [⟨100, 0, false, false⟩, ⟨100, 0, false, false⟩],
    pot := 0, current_bet := 0, min_raise := 20,
    small_blind := 10, big_blind := 20, dealer_pos := 0 }

/-- Engine state for the claim C6 counterexample: the small-blind seat (1)
can cover its 10-chip blind but the big-blind seat (2) has only 5 chips. -/
def gC6 : GameState :=
  { players := [⟨1000, 0, false, false⟩, ⟨100, 0, false, false⟩, ⟨5, 0, false, false⟩],
    pot := 0, current_bet := 0, min_raise := 20,
    small_blind := 10, big_blind := 20, dealer_pos := 0 }

/-- Engine state for the claim C7 scenario: two seats, pot 30, no current
bet, min raise 20; seat A has 200 chips, seat B only 30. -/
def gC7 : GameState :=
  { players := [⟨200, 0, false, false⟩, ⟨30, 0, false, false⟩],
    pot := 30, current_bet := 0, min_raise := 20,
    small_blind := 10, big_blind := 20, dealer_pos := 0 }

/-- Engine state for the claim C5 witness: pot 100, three seats. -/
def gC5 : GameState :=
  { players := [⟨0, 0, false, false⟩, ⟨0, 0, false, false⟩, ⟨0, 0, false, false⟩],
    pot := 100, current_bet := 0, min_raise := 20,
    small_blind := 10, big_blind := 20, dealer_pos := 0 }

/-! Basic lemmas about seat updates and Player.bet. -/

theorem updateAt_length (ps : List Player) (i : Nat) (f : Player → Player) :
    (updateAt ps i f).length = ps.length := by
  induction ps generalizing i with
  | nil => rfl
  | cons p t ih =>
      cases i with
      | zero => rfl
      | succ n => simp [updateAt, ih]

theorem updateAt_getD_self (ps : List Player) (i : Nat) (f : Player → Player)
    (h : i < ps.length) : (updateAt ps i f).getD i default = f (ps.getD i default) := by
  induction ps generalizing i with
  | nil => simp at h
  | cons p t ih =>
      cases i with
      | zero => rfl
      | succ n => simpa [updateAt] using ih n (by simpa using h)

theorem updateAt_getD_ne (ps : List Player) (i j : Nat) (f : Player → Player)
    (h : i ≠ j) : (updateAt ps i f).getD j default = ps.getD j default := by
  induction ps generalizing i j with
  | nil => rfl
  | cons p t ih =>
      cases i with
      | zero =>
          cases j with
          | zero => exact absurd rfl h
          | succ m => rfl
      | succ n =>
          cases j with
          | zero => rfl
          | succ m => simpa [updateAt] using ih n m (fun hh => h (by omega))

theorem sumChips_cons (p : Player) (t : List Player) :
    sumChips (p :: t) = p.chips + sumChips t := by
  simp [sumChips]

theorem sumChips_updateAt (ps : List Player) (i : Nat) (f : Player → Player)
    (h : i < ps.length) :
    sumChips (updateAt ps i f) =
      sumChips ps + ((f (ps.getD i default)).chips - (ps.getD i default).chips) := by
  induction ps generalizing i with
  | nil => simp at h
  | cons p t ih =>
      cases i with
      | zero => simp [updateAt, sumChips_cons]; ring
      | succ n =>
          have hn : n < t.length := by simpa using h
          simp only [updateAt, sumChips_cons, ih n hn, List.getD_cons_succ]
          ring

theorem Player.bet_fst (p : Player) (a : Int) : (p.bet a).1 = min a p.chips := rfl

theorem Player.bet_chips (p : Player) (a : Int) :
    (p.bet a).2.chips = p.chips - min a p.chips := by
  unfold Player.bet
  dsimp only
  split <;> rfl

theorem Player.bet_wager (p : Player) (a : Int) :
    (p.bet a).2.current_bet = p.current_bet + min a p.chips := by
  unfold Player.bet
  dsimp only
  split <;> rfl

theorem Player.bet_folded (p : Player) (a : Int) : (p.bet a).2.folded = p.folded := by
  unfold Player.bet
  dsimp only
  split <;> rfl

theorem Player.bet_allin (p : Player) (a : Int) :
    (p.bet a).2.all_in = if p.chips - min a p.chips = 0 then true else p.all_in := by
  unfold Player.bet
  dsimp only
  split <;> simp_all

/-! Chip-conservation lemmas: the quantity `sumChips + pot` is invariant
under every engine operation that moves chips. -/

theorem executeAction_length (g : GameState) (i : Nat) (a : Action) (amount : Int) :
    (executeAction g i a amount).players.length = g.players.length := by
  cases a <;> simp only [executeAction] <;>
    first
      | (split <;> simp [updateAt_length])
      | simp [updateAt_length]

theorem executeAction_conserves (g : GameState) (i : Nat) (a : Action) (amount : Int)
    (hi : i < g.players.length) :
    sumChips (executeAction g i a amount).players + (executeAction g i a amount).pot =
      sumChips g.players + g.pot := by
  cases a with
  | fold =>
      simp only [executeAction]
      rw [sumChips_updateAt _ _ _ hi]
      ring
  | check =>
      simp only [executeAction]
      split
      · rw [sumChips_updateAt _ _ _ hi]; ring
      · rfl
  | call =>
      simp only [executeAction]
      rw [sumChips_updateAt _ _ _ hi, Player.bet_chips, Player.bet_fst]
      ring
  | raise =>
      simp only [executeAction]
      split
      · rw [sumChips_updateAt _ _ _ hi, Player.bet_chips, Player.bet_fst]; ring
      · rw [sumChips_updateAt _ _ _ hi, Player.bet_chips, Player.bet_fst]; ring
  | all_in =>
      simp only [executeAction]
      split
      · rw [sumChips_updateAt _ _ _ hi, Player.bet_chips, min_self]; ring
      · rw [sumChips_updateAt _ _ _ hi, Player.bet_chips, min_self]; ring

theorem postBlinds_length (g : GameState) :
    (postBlinds g).players.length = g.players.length := by
  simp [postBlinds, updateAt_length]

theorem postBlinds_conserves (g : GameState) (hn : 0 < g.players.length) :
    sumChips (postBlinds g).players + (postBlinds g).pot = sumChips g.players + g.pot := by
  unfold postBlinds
  dsimp only
  have h1 : (g.dealer_pos + 1) % g.players.length < g.players.length := Nat.mod_lt _ hn
  have h2 : (g.dealer_pos + 2) % g.players.length <
      (updateAt g.players ((g.dealer_pos + 1) % g.players.length)
        (fun _ => ((g.players.getD ((g.dealer_pos + 1) % g.players.length) default).bet
          g.small_blind).2)).length := by
    rw [updateAt_length]; exact Nat.mod_lt _ hn
  rw [sumChips_updateAt _ _ _ h2, sumChips_updateAt _ _ _ h1,
    Player.bet_chips, Player.bet_chips, Player.bet_fst, Player.bet_fst]
  ring

theorem applyEvents_length (g : GameState) (evs : List (Nat × Action × Int)) :
    (applyEvents g evs).players.length = g.players.length := by
  induction evs generalizing g with
  | nil => rfl
  | cons e rest ih => rw [applyEvents, ih, executeAction_length]

theorem applyEvents_conserves (g : GameState) (evs : List (Nat × Action × Int))
    (h : ∀ e ∈ evs, e.1 < g.players.length) :
    sumChips (applyEvents g evs).players + (applyEvents g evs).pot =
      sumChips g.players + g.pot := by
  induction evs generalizing g with
  | nil => rfl
  | cons e rest ih =>
      rw [applyEvents]
      rw [ih _ (fun e2 he2 => by
        rw [executeAction_length]; exact h e2 (List.mem_cons_of_mem _ he2))]
      exact executeAction_conserves g e.1 e.2.1 e.2.2 (h e (List.mem_cons_self _ _))

/-! Lemmas about pot distribution. -/

theorem payWinners_length (share rem : Int) (ws : List Nat) :
    ∀ (ps : List Player) (i : Nat), (payWinners share rem ps ws i).length = ps.length := by
  induction ws with
  | nil => intro ps i; rfl
  | cons w t ih => intro ps i; rw [payWinners, ih, updateAt_length]

theorem payWinners_sum (share rem : Int) (ws : List Nat) :
    ∀ (ps : List Player) (i : Nat), (∀ w ∈ ws, w < ps.length) →
      sumChips (payWinners share rem ps ws i) =
        sumChips ps + (ws.length : Int) * share +
          (min rem ((i : Int) + ws.length) - min rem (i : Int)) := by
  induction ws with
  | nil => intro ps i _; simp [payWinners]
  | cons w t ih =>
      intro ps i h
      rw [payWinners]
      rw [ih _ (i + 1) (fun x hx => by
        rw [updateAt_length]; exact h x (List.mem_cons_of_mem _ hx))]
      rw [sumChips_updateAt _ _ _ (h w (List.mem_cons_self _ _))]
      have hone : (if (i : Int) < rem then (1 : Int) else 0) =
          min rem ((i : Int) + 1) - min rem (i : Int) := by
        split <;> omega
      simp only [List.length_cons]
      push_cast
      have hmul : ((t.length : Int) + 1) * share = (t.length : Int) * share + share := by ring
      rw [hmul]
      omega

theorem payWinners_getD_notmem (share rem : Int) (ws : List Nat) :
    ∀ (ps : List Player) (i w : Nat), w ∉ ws →
      (payWinners share rem ps ws i).getD w default = ps.getD w default := by
  induction ws with
  | nil => intro ps i w _; rfl
  | cons x t ih =>
      intro ps i w hw
      rw [payWinners, ih _ _ _ (fun h => hw (List.mem_cons_of_mem _ h))]
      exact updateAt_getD_ne _ _ _ _ (fun h => hw (h ▸ List.mem_cons_self _ _))

theorem payWinners_getD (share rem : Int) (ws : List Nat) :
    ∀ (ps : List Player) (i j : Nat), ws.Nodup → (∀ w ∈ ws, w < ps.length) →
      j < ws.length →
      ((payWinners share rem ps ws i).getD (ws.getD j 0) default).chips =
        (ps.getD (ws.getD j 0) default).chips +
          (share + if ((i : Int) + j) < rem then 1 else 0) := by
  induction ws with
  | nil => intro ps i j _ _ hj; simp at hj
  | cons x t ih =>
      intro ps i j hnd h hj
      rcases List.nodup_cons.mp hnd with ⟨hx, hndt⟩
      cases j with
      | zero =>
          rw [payWinners]
          rw [payWinners_getD_notmem _ _ _ _ _ _ (by simpa using hx)]
          simp only [List.getD_cons_zero]
          rw [updateAt_getD_self _ _ _ (h x (List.mem_cons_self _ _))]
          norm_num
      | succ m =>
          rw [payWinners]
          simp only [List.getD_cons_succ]
          have hmlt : m < t.length := by simpa using hj
          have hmem : t.getD m 0 ∈ t := by
            rw [List.getD_eq_getElem _ _ hmlt]
            exact List.getElem_mem hmlt
          rw [ih _ (i + 1) m hndt
            (fun w hw => by rw [updateAt_length]; exact h w (List.mem_cons_of_mem _ hw))
            hmlt]
          rw [updateAt_getD_ne _ _ _ _ (fun hxx => hx (by rw [hxx]; exact hmem))]
          push_cast
          have harith : ((i : Int) + 1 + m) = ((i : Int) + (m + 1)) := by ring
          rw [harith]

theorem distributePot_pot_sum (g : GameState) (winners : List Nat) (hne : winners ≠ [])
    (hval : ∀ w ∈ winners, w < g.players.length) :
    (distributePot g winners).pot = 0 ∧
      sumChips (distributePot g winners).players = sumChips g.players + g.pot := by
  have hlen : 0 < winners.length := List.length_pos.mpr hne
  have hlenz : (winners.length : Int) ≠ 0 := by exact_mod_cast hlen.ne'
  have hlenpos : (0 : Int) < winners.length := by exact_mod_cast hlen
  unfold distributePot
  rw [if_neg (by simpa [List.isEmpty_iff] using hne)]
  refine ⟨rfl, ?_⟩
  rw [payWinners_sum _ _ _ _ _ hval]
  rw [Int.fdiv_eq_ediv _ hlenpos.le, Int.fmod_eq_emod _ hlenpos.le]
  have h0 : 0 ≤ g.pot % winners.length := Int.emod_nonneg _ hlenz
  have hlt : g.pot % winners.length < winners.length := Int.emod_lt_of_pos _ hlenpos
  have hid : (winners.length : Int) * (g.pot / winners.length) + g.pot % winners.length =
      g.pot := Int.ediv_add_emod _ _
  simp only [Nat.cast_zero, zero_add]
  rw [min_eq_left hlt.le, min_eq_right h0]
  linarith

/-- C5: for every non-empty list of (distinct, valid) winner seats and every
non-negative pot, distribution pays the winner at position j exactly
`pot // n` plus one extra chip precisely when `j < pot % n` (winners in seat
order), the payouts sum exactly to the pot, and the pot is left at 0. -/
theorem c5_distribution (g : GameState) (winners : List Nat) (hne : winners ≠ [])
    (_hpot : 0 ≤ g.pot) (hval : ∀ w ∈ winners, w < g.players.length)
    (hnd : winners.Nodup) :
    (distributePot g winners).pot = 0 ∧
    sumChips (distributePot g winners).players = sumChips g.players + g.pot ∧
    ∀ j, j < winners.length →
      ((distributePot g winners).players.getD (winners.getD j 0) default).chips =
        (g.players.getD (winners.getD j 0) default).chips +
          (Int.fdiv g.pot winners.length +
            if (j : Int) < Int.fmod g.pot winners.length then 1 else 0) := by
  obtain ⟨h1, h2⟩ := distributePot_pot_sum g winners hne hval
  refine ⟨h1, h2, ?_⟩
  intro j hj
  unfold distributePot
  rw [if_neg (by simpa [List.isEmpty_iff] using hne)]
  dsimp only
  rw [payWinners_getD _ _ _ _ _ _ hnd hval hj]
  simp

/-- Witness for C5 at the instance given by the claim: pot 100 split among three
winners yields shares 34, 33, 33 and an empty pot. -/
theorem c5_distribution_w :
    (distributePot gC5 [0, 1, 2]).pot = 0 ∧
    sumChips (distributePot gC5 [0, 1, 2]).players = sumChips gC5.players + gC5.pot ∧
    (distributePot gC5 [0, 1, 2]).players.map Player.chips = [34, 33, 33] := by
  have h := c5_distribution gC5 [0, 1, 2] (by decide) (by decide) (by decide) (by decide)
  exact ⟨h.1, h.2.1, by decide⟩

/-- C2 (amended): over a complete hand - blinds posted, then any sequence of
seat actions, then distribution to a NON-EMPTY winner set - the total seat
chips return to exactly the pre-hand total and the pot ends at 0.  With an
empty winner set the distribution is an early-returning no-op that leaves
the pot unchanged (see the counterexample), so the money is dropped when the
next hand resets the pot. -/
theorem c2_pot_conservation (g0 : GameState) (evs : List (Nat × Action × Int))
    (winners : List Nat) (hp0 : g0.pot = 0) (hn : 0 < g0.players.length)
    (hne : winners ≠ [])
    (hevs : ∀ e ∈ evs, e.1 < g0.players.length)
    (hwin : ∀ w ∈ winners, w < g0.players.length) :
    (distributePot (applyEvents (postBlinds g0) evs) winners).pot = 0 ∧
    sumChips (distributePot (applyEvents (postBlinds g0) evs) winners).players =
      sumChips g0.players := by
  have hlen : (applyEvents (postBlinds g0) evs).players.length = g0.players.length := by
    rw [applyEvents_length, postBlinds_length]
  obtain ⟨h1, h2⟩ := distributePot_pot_sum (applyEvents (postBlinds g0) evs) winners hne
    (fun w hw => by rw [hlen]; exact hwin w hw)
  refine ⟨h1, ?_⟩
  rw [h2]
  have h3 := applyEvents_conserves (postBlinds g0) evs
    (fun e he => by rw [postBlinds_length]; exact hevs e he)
  have h4 := postBlinds_conserves g0 hn
  linarith [hp0]

/-- Witness for C2: a two-seat hand in `gW` - blinds, one call, seat 0 takes
the pot - conserves the 200 total chips and empties the pot. -/
theorem c2_pot_conservation_w :
    (distributePot (applyEvents (postBlinds gW) [(1, Action.call, 0)]) [0]).pot = 0 ∧
    sumChips (distributePot (applyEvents (postBlinds gW) [(1, Action.call, 0)]) [0]).players =
      sumChips gW.players :=
  c2_pot_conservation gW [(1, Action.call, 0)] [0] (by decide) (by decide) (by decide)
    (by decide) (by decide)

/-- C8: a Check while the street wager of the seat is below the current bet marks
the seat folded and moves no chips (pot and the stack of the seat unchanged), and
a Raise whose resulting total wager does not strictly exceed the current bet
is executed as exactly the corresponding Call (whose amount argument is
ignored); both anomalies are repaired locally - `executeAction` is a total
function, so the engine never raises an error or aborts the hand. -/
theorem c8_downgrade (g : GameState) (i : Nat) (amt amt2 : Int)
    (hi : i < g.players.length) :
    ((g.players.getD i default).current_bet < g.current_bet →
      (executeAction g i Action.check amt).pot = g.pot ∧
      ((executeAction g i Action.check amt).players.getD i default).folded = true ∧
      ((executeAction g i Action.check amt).players.getD i default).chips =
        (g.players.getD i default).chips) ∧
    ((g.players.getD i default).current_bet + amt ≤ g.current_bet →
      executeAction g i Action.raise amt = executeAction g i Action.call amt2) := by
  constructor
  · intro h
    simp only [executeAction]
    rw [if_pos h]
    refine ⟨rfl, ?_, ?_⟩ <;> rw [updateAt_getD_self _ _ _ hi]
  · intro h
    simp only [executeAction]
    rw [if_pos h]

/-- Witness for C8: in `g3` (table bet 20) seat 0 with wager 0 checking is
folded with no chips moved, and a Raise of 10 (total 10, not above 20) is
executed as the Call. -/
theorem c8_downgrade_w :
    ((executeAction g3 0 Action.check 10).pot = g3.pot ∧
      ((executeAction g3 0 Action.check 10).players.getD 0 default).folded = true ∧
      ((executeAction g3 0 Action.check 10).players.getD 0 default).chips =
        (g3.players.getD 0 default).chips) ∧
    executeAction g3 0 Action.raise 10 = executeAction g3 0 Action.call 5 := by
  have h := c8_downgrade g3 0 10 5 (by decide)
  exact ⟨h.1 (by decide), h.2 (by decide)⟩

/-- C10: when an ALL_IN strictly raises the table bet, the engine afterwards
has min_raise = 0, because texasHoldem.py line 218 updates
`self.current_bet` to the all-in total BEFORE line 219 computes
`self.min_raise = total_bet - self.current_bet`; consequently any later
positive Raise amount, played by a seat whose wager matches the table bet,
clears the current bet and is accepted as a valid raise (the engine never
consults min_raise when validating a raise). -/
theorem c10_allin_min_raise_zero (g : GameState) (i : Nat) (amt : Int)
    (hr : g.current_bet <
      (g.players.getD i default).current_bet + (g.players.getD i default).chips) :
    (executeAction g i Action.all_in amt).min_raise = 0 ∧
    (∀ j amt2, 0 < amt2 →
      ((executeAction g i Action.all_in amt).players.getD j default).current_bet =
        (executeAction g i Action.all_in amt).current_bet →
      (executeAction (executeAction g i Action.all_in amt) j Action.raise amt2).current_bet =
        (executeAction g i Action.all_in amt).current_bet + amt2) := by
  have hw : ((g.players.getD i default).bet (g.players.getD i default).chips).2.current_bet =
      (g.players.getD i default).current_bet + (g.players.getD i default).chips := by
    rw [Player.bet_wager, min_self]
  constructor
  · simp only [executeAction]
    rw [if_pos (by rw [hw]; exact hr)]
    simp
  · intro j amt2 hpos heq
    generalize hG : executeAction g i Action.all_in amt = g2 at heq ⊢
    simp only [executeAction]
    rw [if_neg (by rw [heq]; omega)]
    dsimp only
    rw [heq]

/-- Witness for C10: in `gC7` the all-in of 30 by seat 1 beats the table bet 0,
leaving min_raise 0, and a later raise of 5 on top of the 30 is accepted. -/
theorem c10_allin_min_raise_zero_w :
    (executeAction gC7 1 Action.all_in 0).min_raise = 0 ∧
    (executeAction (executeAction gC7 1 Action.all_in 0) 1 Action.raise 5).current_bet =
      (executeAction gC7 1 Action.all_in 0).current_bet + 5 := by
  have h := c10_allin_min_raise_zero gC7 1 0 (by decide)
  exact ⟨h.1, h.2 1 5 (by decide) (by decide)⟩

/-- Positions (d+1) mod n and (d+2) mod n are distinct whenever n is at
least 2 (the small- and big-blind seats never coincide at such tables). -/
theorem blind_positions_ne (d n : Nat) (h2 : 2 ≤ n) : (d + 1) % n ≠ (d + 2) % n := by
  intro h
  have hn : 0 < n := by omega
  have hm : (d + 1) % n < n := Nat.mod_lt _ hn
  have e1 : ((d + 1) % n + 1) % n = (d + 2) % n := by
    rw [Nat.mod_add_mod]
  rcases Nat.lt_or_ge ((d + 1) % n + 1) n with hlt | hge
  · rw [Nat.mod_eq_of_lt hlt] at e1
    omega
  · have hsn : (d + 1) % n + 1 = n := by omega
    rw [hsn, Nat.mod_self] at e1
    omega

/-- C6 (amended): after PostBlinds the seat at (dealer+1) mod n has posted
the small blind and the seat at (dealer+2) mod n the big blind, each posting
capped at that stack and the seat flagged all-in exactly when its
stack does not exceed its blind - but the current bet of the table ends as the
actual posting of the BIG BLIND (texasHoldem.py line 89 overwrites line 84), not
the larger of the two actual postings. -/
theorem c6_blinds (g : GameState) (h2 : 2 ≤ g.players.length)
    (hsb : (g.players.getD ((g.dealer_pos + 1) % g.players.length) default).all_in = false)
    (hbb : (g.players.getD ((g.dealer_pos + 2) % g.players.length) default).all_in = false) :
    (postBlinds g).current_bet =
      min g.big_blind
        (g.players.getD ((g.dealer_pos + 2) % g.players.length) default).chips ∧
    (postBlinds g).pot = g.pot +
      min g.small_blind
        (g.players.getD ((g.dealer_pos + 1) % g.players.length) default).chips +
      min g.big_blind
        (g.players.getD ((g.dealer_pos + 2) % g.players.length) default).chips ∧
    ((postBlinds g).players.getD ((g.dealer_pos + 1) % g.players.length) default).chips =
      (g.players.getD ((g.dealer_pos + 1) % g.players.length) default).chips -
        min g.small_blind
          (g.players.getD ((g.dealer_pos + 1) % g.players.length) default).chips ∧
    ((postBlinds g).players.getD ((g.dealer_pos + 1) % g.players.length) default).current_bet =
      (g.players.getD ((g.dealer_pos + 1) % g.players.length) default).current_bet +
        min g.small_blind
          (g.players.getD ((g.dealer_pos + 1) % g.players.length) default).chips ∧
    (((postBlinds g).players.getD ((g.dealer_pos + 1) % g.players.length) default).all_in =
        true ↔
      (g.players.getD ((g.dealer_pos + 1) % g.players.length) default).chips ≤
        g.small_blind) ∧
    ((postBlinds g).players.getD ((g.dealer_pos + 2) % g.players.length) default).chips =
      (g.players.getD ((g.dealer_pos + 2) % g.players.length) default).chips -
        min g.big_blind
          (g.players.getD ((g.dealer_pos + 2) % g.players.length) default).chips ∧
    ((postBlinds g).players.getD ((g.dealer_pos + 2) % g.players.length) default).current_bet =
      (g.players.getD ((g.dealer_pos + 2) % g.players.length) default).current_bet +
        min g.big_blind
          (g.players.getD ((g.dealer_pos + 2) % g.players.length) default).chips ∧
    (((postBlinds g).players.getD ((g.dealer_pos + 2) % g.players.length) default).all_in =
        true ↔
      (g.players.getD ((g.dealer_pos + 2) % g.players.length) default).chips ≤
        g.big_blind) := by
  have hn : 0 < g.players.length := by omega
  have hne : (g.dealer_pos + 1) % g.players.length ≠
      (g.dealer_pos + 2) % g.players.length := blind_positions_ne _ _ h2
  have h1 : (g.dealer_pos + 1) % g.players.length < g.players.length := Nat.mod_lt _ hn
  have h1u : (g.dealer_pos + 2) % g.players.length <
      (updateAt g.players ((g.dealer_pos + 1) % g.players.length)
        (fun _ => ((g.players.getD ((g.dealer_pos + 1) % g.players.length) default).bet
          g.small_blind).2)).length := by
    rw [updateAt_length]; exact Nat.mod_lt _ hn
  simp only [postBlinds]
  rw [updateAt_getD_ne _ _ _ _ hne]
  refine ⟨rfl, by rw [Player.bet_fst, Player.bet_fst], ?_, ?_, ?_, ?_, ?_, ?_⟩
  · rw [updateAt_getD_ne _ _ _ _ (Ne.symm hne), updateAt_getD_self _ _ _ h1,
      Player.bet_chips]
  · rw [updateAt_getD_ne _ _ _ _ (Ne.symm hne), updateAt_getD_self _ _ _ h1,
      Player.bet_wager]
  · rw [updateAt_getD_ne _ _ _ _ (Ne.symm hne), updateAt_getD_self _ _ _ h1,
      Player.bet_allin, hsb]
    constructor
    · intro hx
      by_contra hc
      rw [if_neg (by omega)] at hx
      exact Bool.false_ne_true hx
    · intro hx
      rw [if_pos (by omega)]
  · rw [updateAt_getD_self _ _ _ h1u, Player.bet_chips]
  · rw [updateAt_getD_self _ _ _ h1u, Player.bet_wager]
  · rw [updateAt_getD_self _ _ _ h1u, Player.bet_allin, hbb]
    constructor
    · intro hx
      by_contra hc
      rw [if_neg (by omega)] at hx
      exact Bool.false_ne_true hx
    · intro hx
      rw [if_pos (by omega)]

/-- Witness for C6 at `gC6` (small blind covered, big blind short): the
final current bet is the actual posting of the big blind. -/
theorem c6_blinds_w :
    (postBlinds gC6).current_bet =
      min gC6.big_blind
        (gC6.players.getD ((gC6.dealer_pos + 2) % gC6.players.length) default).chips :=
  (c6_blinds gC6 (by decide) (by decide) (by decide)).1

/-- Transitivity of non-negative comparison for compareKickers on kicker
lists of equal length (the zip never truncates in that case). -/
theorem compareKickers_trans (xs : List Nat) :
    ∀ ys zs : List Nat, xs.length = ys.length → ys.length = zs.length →
      0 ≤ compareKickers xs ys → 0 ≤ compareKickers ys zs →
      0 ≤ compareKickers xs zs := by
  induction xs with
  | nil =>
      intro ys zs h1 h2 _ _
      cases ys with
      | nil =>
          cases zs with
          | nil => simp [compareKickers]
          | cons c t3 => simp at h2
      | cons b t2 => simp at h1
  | cons a t1 ih =>
      intro ys zs h1 h2 hxy hyz
      cases ys with
      | nil => simp at h1
      | cons b t2 =>
          cases zs with
          | nil => simp at h2
          | cons c t3 =>
              simp only [compareKickers] at hxy hyz ⊢
              split_ifs at hxy hyz ⊢ <;>
                first
                  | omega
                  | exact ih t2 t3 (by simpa using h1) (by simpa using h2) hxy hyz

/-- C9 (amended): compareScores compares the category first and then the
kickers element-wise, the first differing element deciding, with ties after
exhausting the zipped kickers equal; restricted to scores whose kicker lists
have equal lengths it is transitive: A >= B and B >= C imply A >= C.
(Unrestricted, transitivity fails because zip truncation equates scores of
different kicker lengths - see the counterexample.) -/
theorem c9_compare_trans (A B C : Nat × List Nat)
    (h1 : A.2.length = B.2.length) (h2 : B.2.length = C.2.length)
    (hab : 0 ≤ compareHands A B) (hbc : 0 ≤ compareHands B C) :
    0 ≤ compareHands A C := by
  unfold compareHands at hab hbc ⊢
  split_ifs at hab hbc ⊢ <;>
    first
      | omega
      | exact compareKickers_trans A.2 B.2 C.2 h1 h2 hab hbc

/-- Witness for C9: (2,[5,3]) >= (1,[9,9]) >= (1,[8,2]), all kicker lists of
length two, gives (2,[5,3]) >= (1,[8,2]) through the theorem. -/
theorem c9_compare_trans_w : 0 ≤ compareHands (2, [5, 3]) (1, [8, 2]) :=
  c9_compare_trans (2, [5, 3]) (1, [9, 9]) (1, [8, 2]) (by decide) (by decide)
    (by decide) (by decide)

/-! Lemmas about the betting-round loop: the iteration counter, cursor and
last-aggressor pointer of `iterRound`. -/

theorem iterRound_actions (dec : Nat → Action × Int) (n : Nat) (s0 : RoundState) (k : Nat) :
    (iterRound dec n s0 k).actions_taken = s0.actions_taken + k := by
  induction k with
  | zero => rfl
  | succ k ih =>
      have hh := ih
      rw [iterRound]
      unfold roundStep
      split <;> (dsimp only; omega)

theorem iterRound_pos (dec : Nat → Action × Int) (n : Nat) (s0 : RoundState)
    (_hn : 0 < n) (hp : s0.current_pos < n) (k : Nat) :
    (iterRound dec n s0 k).current_pos = (s0.current_pos + k) % n := by
  induction k with
  | zero => simp [iterRound, Nat.mod_eq_of_lt hp]
  | succ k ih =>
      rw [iterRound]
      unfold roundStep
      split <;>
        (dsimp only; rw [ih, Nat.mod_add_mod, Nat.add_assoc])

theorem iterRound_lr_none (dec : Nat → Action × Int) (n : Nat) (s0 : RoundState) (k : Nat)
    (h : ∀ j, j < k → aggrAt dec n s0 j = false) :
    (iterRound dec n s0 k).last_raiser = s0.last_raiser := by
  induction k with
  | zero => rfl
  | succ k ih =>
      have hk := h k (by omega)
      rw [iterRound]
      unfold roundStep
      split
      · rename_i hA
        have hB : ¬((dec (iterRound dec n s0 k).actions_taken).1 = Action.raise ∨
            (dec (iterRound dec n s0 k).actions_taken).1 = Action.all_in) := by
          unfold aggrAt at hk
          simp only [Bool.and_eq_false_iff, decide_eq_false_iff_not] at hk
          rcases hk with h1 | h1
          · exact absurd hA h1
          · exact h1
        dsimp only
        rw [if_neg hB]
        exact ih (fun j hj => h j (by omega))
      · dsimp only
        exact ih (fun j hj => h j (by omega))

theorem iterRound_lr_aggr (dec : Nat → Action × Int) (n : Nat) (s0 : RoundState)
    (j : Nat) : ∀ k, aggrAt dec n s0 j = true →
    (∀ i, j < i → i < k → aggrAt dec n s0 i = false) → j < k →
    (iterRound dec n s0 k).last_raiser = some ((iterRound dec n s0 j).current_pos) := by
  intro k
  induction k with
  | zero => intro _ _ hjk; omega
  | succ k ih =>
      intro hj hmid hjk
      rcases Nat.lt_or_ge j k with hlt | hge
      · have hk := hmid k hlt (by omega)
        rw [iterRound]
        unfold roundStep
        split
        · rename_i hA
          have hB : ¬((dec (iterRound dec n s0 k).actions_taken).1 = Action.raise ∨
              (dec (iterRound dec n s0 k).actions_taken).1 = Action.all_in) := by
            unfold aggrAt at hk
            simp only [Bool.and_eq_false_iff, decide_eq_false_iff_not] at hk
            rcases hk with h1 | h1
            · exact absurd hA h1
            · exact h1
          dsimp only
          rw [if_neg hB]
          exact ih hj (fun i h1 h2 => hmid i h1 (by omega)) hlt
        · dsimp only
          exact ih hj (fun i h1 h2 => hmid i h1 (by omega)) hlt
      · have hjeq : j = k := by omega
        subst hjeq
        unfold aggrAt at hj
        simp only [Bool.and_eq_true, decide_eq_true_eq] at hj
        rw [iterRound]
        unfold roundStep
        rw [if_pos hj.1]
        dsimp only
        rw [if_pos hj.2]

/-- C3 (amended): the betting-round loop (1) never terminates before one
full pass of n iterations; (2) terminates after EXACTLY one full pass when
no iteration executes a RAISE or ALL_IN action by an active seat; and (3)
when some iteration j executes a RAISE or ALL_IN (whether or not it actually
raised the table bet - texasHoldem.py lines 163-164 record ANY such action,
including a calling all-in and a downgraded raise) and no later iteration
before k does, the loop guard at iteration k fails exactly when all seats
have been visited and the cursor has returned to the seat that acted at j.
The reading of the claim - an AllIn sets a new last-aggressor only when it raises
the current bet - is refuted by the counterexample. -/
theorem c3_round_termination (dec : Nat → Action × Int) (g : GameState) (start n : Nat)
    (hn : n = g.players.length) (hn0 : 0 < n) (hs : start < n) :
    (∀ k, k < n → whileCond n (iterRound dec n (initRound g start) k) = true) ∧
    ((∀ j, j < n → aggrAt dec n (initRound g start) j = false) →
      whileCond n (iterRound dec n (initRound g start) n) = false) ∧
    (∀ j k, aggrAt dec n (initRound g start) j = true →
      (∀ i, j < i → i < k → aggrAt dec n (initRound g start) i = false) → j < k →
      (whileCond n (iterRound dec n (initRound g start) k) = false ↔
        (n ≤ k ∧ (start + k) % n = (start + j) % n))) := by
  have ha0 : (initRound g start).actions_taken = 0 := rfl
  have hl0 : (initRound g start).last_raiser = none := rfl
  have hp0 : (initRound g start).current_pos = start := rfl
  refine ⟨?_, ?_, ?_⟩
  · intro k hk
    unfold whileCond
    rw [iterRound_actions, ha0]
    have hklt : decide (0 + k < n) = true := by simp; omega
    rw [hklt, Bool.true_or]
  · intro h
    unfold whileCond
    rw [iterRound_actions, ha0, iterRound_lr_none dec n _ n h, hl0]
    have hkge : decide (0 + n < n) = false := by simp
    rw [hkge, Bool.false_or]
  · intro j k hj hmid hjk
    unfold whileCond
    rw [iterRound_actions, ha0,
      iterRound_lr_aggr dec n _ j k hj hmid hjk,
      iterRound_pos dec n _ hn0 (by rw [hp0]; exact hs) k,
      iterRound_pos dec n _ hn0 (by rw [hp0]; exact hs) j, hp0]
    rw [Bool.or_eq_false_iff]
    simp only [decide_eq_false_iff_not, Decidable.not_not]
    constructor
    · rintro ⟨h1, h2⟩
      exact ⟨by omega, h2⟩
    · rintro ⟨h1, h2⟩
      exact ⟨by omega, h2⟩

/-- Witness for C3: in the all-check two-seat round on `gW` the guard is
still true after 1 iteration and false after exactly 2 (one full pass); and
in the `g3` round with a calling all-in at iteration 1, the guard at
iteration 3 is false exactly when the cursor has returned to seat 1 - here
it has not, so the round continues past one full pass. -/
theorem c3_round_termination_w :
    whileCond 2 (iterRound decCheck 2 (initRound gW 0) 1) = true ∧
    whileCond 2 (iterRound decCheck 2 (initRound gW 0) 2) = false ∧
    (whileCond 3 (iterRound dec3 3 (initRound g3 0) 3) = false ↔
      (3 ≤ 3 ∧ (0 + 3) % 3 = (0 + 1) % 3)) := by
  refine ⟨?_, ?_, ?_⟩
  · exact (c3_round_termination decCheck gW 0 2 (by decide) (by decide) (by decide)).1
      1 (by decide)
  · exact (c3_round_termination decCheck gW 0 2 (by decide) (by decide) (by decide)).2.1
      (by decide)
  · exact (c3_round_termination dec3 g3 0 3 (by decide) (by decide) (by decide)).2.2
      1 3 (by decide)
      (fun i h1 h2 => by
        have hi : i = 2 := by omega
        subst hi
        decide)
      (by decide)

/-! Permutation lemmas for the evaluator: `sortDesc`, `pyKeys`, and the
unique-witness arguments that make each evaluator component depend only on
the multiset of input cards (claim C4). -/

theorem insertDesc_perm (a : Nat) (l : List Nat) : (insertDesc a l).Perm (a :: l) := by
  induction l with
  | nil => exact List.Perm.refl _
  | cons b t ih =>
      unfold insertDesc
      split
      · exact List.Perm.refl _
      · exact List.Perm.trans (List.Perm.cons b ih) (List.Perm.swap a b t)

theorem sortDesc_perm (l : List Nat) : (sortDesc l).Perm l := by
  induction l with
  | nil => exact List.Perm.refl _
  | cons a t ih =>
      exact List.Perm.trans (insertDesc_perm a (sortDesc t)) (List.Perm.cons a ih)

theorem insertDesc_sorted (a : Nat) (l : List Nat) (h : l.Sorted (· ≥ ·)) :
    (insertDesc a l).Sorted (· ≥ ·) := by
  induction l with
  | nil => simp [insertDesc]
  | cons b t ih =>
      rw [List.sorted_cons] at h
      unfold insertDesc
      split
      · rename_i hba
        rw [List.sorted_cons]
        refine ⟨?_, ?_⟩
        · intro x hx
          rcases List.mem_cons.mp hx with h1 | h1
          · omega
          · have := h.1 x h1; omega
        · rw [List.sorted_cons]; exact h
      · rename_i hba
        rw [List.sorted_cons]
        refine ⟨?_, ih h.2⟩
        intro x hx
        have hx2 : x ∈ a :: t := (insertDesc_perm a t).mem_iff.mp hx
        rcases List.mem_cons.mp hx2 with h1 | h1
        · omega
        · exact h.1 x h1

theorem sortDesc_sorted (l : List Nat) : (sortDesc l).Sorted (· ≥ ·) := by
  induction l with
  | nil => simp [sortDesc]
  | cons a t ih => exact insertDesc_sorted a (sortDesc t) ih

theorem sortDesc_eq_of_perm (l1 l2 : List Nat) (h : l1.Perm l2) : sortDesc l1 = sortDesc l2 := by
  haveI : IsAntisymm Nat (· ≥ ·) := ⟨fun a b h1 h2 => le_antisymm h2 h1⟩
  exact List.eq_of_perm_of_sorted
    (List.Perm.trans (sortDesc_perm l1) (List.Perm.trans h (sortDesc_perm l2).symm))
    (sortDesc_sorted l1) (sortDesc_sorted l2)

theorem mem_pyKeys {α : Type} [DecidableEq α] (l : List α) (a : α) :
    a ∈ pyKeys l ↔ a ∈ l := by
  induction l with
  | nil => simp [pyKeys]
  | cons b t ih =>
      simp only [pyKeys, List.mem_cons, List.mem_filter, decide_eq_true_eq]
      by_cases hab : a = b
      · simp [hab]
      · simp [hab, ih]

theorem pyKeys_nodup {α : Type} [DecidableEq α] (l : List α) : (pyKeys l).Nodup := by
  induction l with
  | nil => simp [pyKeys]
  | cons b t ih =>
      unfold pyKeys
      refine List.nodup_cons.mpr ⟨?_, List.Nodup.filter _ ih⟩
      simp [List.mem_filter]

theorem pyKeys_perm {α : Type} [DecidableEq α] (l1 l2 : List α) (h : l1.Perm l2) :
    (pyKeys l1).Perm (pyKeys l2) := by
  rw [List.perm_ext_iff_of_nodup (pyKeys_nodup l1) (pyKeys_nodup l2)]
  intro a
  rw [mem_pyKeys, mem_pyKeys]
  exact ⟨fun ha => h.mem_iff.mp ha, fun ha => h.mem_iff.mpr ha⟩

theorem find?_eq_some_of_unique {α : Type} (p : α → Bool) (l : List α) (a : α)
    (hu : ∀ x ∈ l, p x = true → x = a) (ha : a ∈ l) (hp : p a = true) :
    l.find? p = some a := by
  induction l with
  | nil => simp at ha
  | cons b t ih =>
      by_cases hb : p b = true
      · rw [List.find?_cons_of_pos _ hb, hu b (List.mem_cons_self _ _) hb]
      · rw [List.find?_cons_of_neg _ (by simpa using hb)]
        apply ih (fun x hx hpx => hu x (List.mem_cons_of_mem _ hx) hpx)
        rcases List.mem_cons.mp ha with h1 | h1
        · subst h1; exact absurd hp hb
        · exact h1

theorem foldlPick_none (q : Nat → Prop) [DecidablePred q] (l : List Nat)
    (init : Option Nat) (h : ∀ x ∈ l, ¬ q x) :
    l.foldl (fun acc r => if q r then some r else acc) init = init := by
  induction l generalizing init with
  | nil => rfl
  | cons b t ih =>
      rw [List.foldl_cons, if_neg (h b (List.mem_cons_self _ _))]
      exact ih init (fun x hx => h x (List.mem_cons_of_mem _ hx))

theorem foldlPick_unique (q : Nat → Prop) [DecidablePred q] (l : List Nat) (a : Nat)
    (hq : q a) : l.Nodup → (∀ x ∈ l, q x → x = a) → a ∈ l →
    ∀ init, l.foldl (fun acc r => if q r then some r else acc) init = some a := by
  induction l with
  | nil => intro _ _ ha; simp at ha
  | cons b t ih =>
      intro hnd hu ha init
      rcases List.nodup_cons.mp hnd with ⟨hbt, hndt⟩
      rw [List.foldl_cons]
      by_cases hab : a = b
      · subst hab
        rw [if_pos hq]
        apply foldlPick_none
        intro x hx hqx
        exact hbt ((hu x (List.mem_cons_of_mem _ hx) hqx) ▸ hx)
      · have hqb : ¬ q b := fun hqb => hab (hu b (List.mem_cons_self _ _) hqb).symm
        rw [if_neg hqb]
        have hat : a ∈ t := by
          rcases List.mem_cons.mp ha with h1 | h1
          · exact absurd h1 hab
          · exact h1
        exact ih hndt (fun x hx => hu x (List.mem_cons_of_mem _ hx)) hat init

theorem count_two_ne {α : Type} [DecidableEq α] (l : List α) (a b : α) (h : a ≠ b) :
    l.count a + l.count b ≤ l.length := by
  induction l with
  | nil => simp
  | cons c t ih =>
      simp only [List.count_cons, List.length_cons, beq_iff_eq]
      by_cases hac : a = c <;> by_cases hbc : b = c
      · exact absurd (hac.trans hbc.symm) h
      · rw [if_pos hac.symm, if_neg (fun hh => hbc hh.symm)]; omega
      · rw [if_neg (fun hh => hac hh.symm), if_pos hbc.symm]; omega
      · rw [if_neg (fun hh => hac hh.symm), if_neg (fun hh => hbc hh.symm)]; omega

/-! Component-wise permutation invariance of the evaluator. -/

theorem rankCount_eq (l1 l2 : List Card) (h : l1.Perm l2) (r : Nat) :
    rankCount l1 r = rankCount l2 r := by
  unfold rankCount
  exact (h.map Card.rank).count_eq r

theorem suitCount_eq (l1 l2 : List Card) (h : l1.Perm l2) (s : Suit) :
    suitCount l1 s = suitCount l2 s := by
  unfold suitCount
  exact (h.map Card.suit).count_eq s

theorem rankKeys_perm (l1 l2 : List Card) (h : l1.Perm l2) : (rankKeys l1).Perm (rankKeys l2) :=
  pyKeys_perm _ _ (h.map Card.rank)

theorem suitKeys_perm (l1 l2 : List Card) (h : l1.Perm l2) : (suitKeys l1).Perm (suitKeys l2) :=
  pyKeys_perm _ _ (h.map Card.suit)

theorem sortedRanks_eq (l1 l2 : List Card) (h : l1.Perm l2) :
    sortedRanks l1 = sortedRanks l2 := by
  unfold sortedRanks
  exact sortDesc_eq_of_perm _ _ (rankKeys_perm l1 l2 h)

theorem wheelHigh_eq (l1 l2 : List Card) (h : l1.Perm l2) : wheelHigh l1 = wheelHigh l2 := by
  unfold wheelHigh
  rw [sortedRanks_eq l1 l2 h]

theorem normalStraight_eq (l1 l2 : List Card) (h : l1.Perm l2) :
    normalStraight l1 = normalStraight l2 := by
  unfold normalStraight
  rw [sortedRanks_eq l1 l2 h]

theorem straightHigh_eq (l1 l2 : List Card) (h : l1.Perm l2) :
    straightHigh l1 = straightHigh l2 := by
  unfold straightHigh
  rw [normalStraight_eq l1 l2 h, wheelHigh_eq l1 l2 h]

theorem flushSuit_eq (l1 l2 : List Card) (h : l1.Perm l2) (h7 : l1.length ≤ 7) :
    flushSuit l1 = flushSuit l2 := by
  unfold flushSuit
  by_cases hex : ∃ s, s ∈ suitKeys l1 ∧ 5 ≤ suitCount l1 s
  · obtain ⟨s, hs, h5⟩ := hex
    have hu1 : ∀ x ∈ suitKeys l1, decide (5 ≤ suitCount l1 x) = true → x = s := by
      intro x hx hpx
      rw [decide_eq_true_eq] at hpx
      by_contra hne
      have hcc := count_two_ne (l1.map Card.suit) x s hne
      unfold suitCount at hpx h5
      have hlen : (l1.map Card.suit).length = l1.length := List.length_map _ _
      omega
    rw [find?_eq_some_of_unique _ _ s hu1 hs (by rw [decide_eq_true_eq]; exact h5)]
    have hu2 : ∀ x ∈ suitKeys l2, decide (5 ≤ suitCount l2 x) = true → x = s := by
      intro x hx hpx
      rw [decide_eq_true_eq, ← suitCount_eq l1 l2 h] at hpx
      exact hu1 x ((suitKeys_perm l1 l2 h).mem_iff.mpr hx)
        (by rw [decide_eq_true_eq]; exact hpx)
    rw [find?_eq_some_of_unique _ _ s hu2 ((suitKeys_perm l1 l2 h).mem_iff.mp hs)
      (by rw [decide_eq_true_eq, ← suitCount_eq l1 l2 h]; exact h5)]
  · rw [List.find?_eq_none.mpr, List.find?_eq_none.mpr]
    · intro x hx
      simp only [decide_eq_true_eq, ← suitCount_eq l1 l2 h]
      exact fun hc => hex ⟨x, (suitKeys_perm l1 l2 h).mem_iff.mpr hx, hc⟩
    · intro x hx
      simp only [decide_eq_true_eq]
      exact fun hc => hex ⟨x, hx, hc⟩

theorem fourOfAKind_eq (l1 l2 : List Card) (h : l1.Perm l2) (h7 : l1.length ≤ 7) :
    fourOfAKind l1 = fourOfAKind l2 := by
  unfold fourOfAKind
  by_cases hex : ∃ a, a ∈ rankKeys l1 ∧ rankCount l1 a = 4
  · obtain ⟨a, ha, h4⟩ := hex
    have hu1 : ∀ x ∈ rankKeys l1, decide (rankCount l1 x = 4) = true → x = a := by
      intro x hx hpx
      rw [decide_eq_true_eq] at hpx
      by_contra hne
      have hcc := count_two_ne (l1.map Card.rank) x a hne
      unfold rankCount at hpx h4
      have hlen : (l1.map Card.rank).length = l1.length := List.length_map _ _
      omega
    rw [find?_eq_some_of_unique _ _ a hu1 ha (by rw [decide_eq_true_eq]; exact h4)]
    have hu2 : ∀ x ∈ rankKeys l2, decide (rankCount l2 x = 4) = true → x = a := by
      intro x hx hpx
      rw [decide_eq_true_eq, ← rankCount_eq l1 l2 h] at hpx
      exact hu1 x ((rankKeys_perm l1 l2 h).mem_iff.mpr hx)
        (by rw [decide_eq_true_eq]; exact hpx)
    rw [find?_eq_some_of_unique _ _ a hu2 ((rankKeys_perm l1 l2 h).mem_iff.mp ha)
      (by rw [decide_eq_true_eq, ← rankCount_eq l1 l2 h]; exact h4)]
  · rw [List.find?_eq_none.mpr, List.find?_eq_none.mpr]
    · intro x hx
      simp only [decide_eq_true_eq, ← rankCount_eq l1 l2 h]
      exact fun hc => hex ⟨x, (rankKeys_perm l1 l2 h).mem_iff.mpr hx, hc⟩
    · intro x hx
      simp only [decide_eq_true_eq]
      exact fun hc => hex ⟨x, hx, hc⟩

theorem threeOfAKind_eq (l1 l2 : List Card) (h : l1.Perm l2)
    (h3 : ∀ r1 ∈ rankKeys l1, ∀ r2 ∈ rankKeys l1,
      rankCount l1 r1 = 3 → rankCount l1 r2 = 3 → r1 = r2) :
    threeOfAKind l1 = threeOfAKind l2 := by
  unfold threeOfAKind
  by_cases hex : ∃ a, a ∈ rankKeys l1 ∧ rankCount l1 a = 3
  · obtain ⟨a, ha, hqa⟩ := hex
    rw [foldlPick_unique (fun r => rankCount l1 r = 3) (rankKeys l1) a hqa
      (pyKeys_nodup _) (fun x hx hqx => h3 x hx a ha hqx hqa) ha none]
    rw [foldlPick_unique (fun r => rankCount l2 r = 3) (rankKeys l2) a
      (by show rankCount l2 a = 3; rw [← rankCount_eq l1 l2 h]; exact hqa)
      (pyKeys_nodup _)
      (fun x hx hqx => h3 x ((rankKeys_perm l1 l2 h).mem_iff.mpr hx) a ha
        (by rw [rankCount_eq l1 l2 h]; exact hqx) hqa)
      ((rankKeys_perm l1 l2 h).mem_iff.mp ha) none]
  · rw [foldlPick_none (fun r => rankCount l1 r = 3) (rankKeys l1) none
        (fun x hx hq => hex ⟨x, hx, hq⟩),
      foldlPick_none (fun r => rankCount l2 r = 3) (rankKeys l2) none
        (fun x hx hq =>
          hex ⟨x, (rankKeys_perm l1 l2 h).mem_iff.mpr hx,
            by rw [rankCount_eq l1 l2 h]; exact hq⟩)]

theorem pairsList_eq (l1 l2 : List Card) (h : l1.Perm l2) : pairsList l1 = pairsList l2 := by
  unfold pairsList
  have hpred : (fun r => decide (rankCount l2 r = 2)) =
      (fun r => decide (rankCount l1 r = 2)) := by
    funext r
    rw [rankCount_eq l1 l2 h]
  rw [hpred]
  exact sortDesc_eq_of_perm _ _ ((rankKeys_perm l1 l2 h).filter _)

theorem kickersExcept_eq (l1 l2 : List Card) (h : l1.Perm l2) (x : Nat) :
    kickersExcept l1 x = kickersExcept l2 x := by
  unfold kickersExcept
  exact sortDesc_eq_of_perm _ _ ((rankKeys_perm l1 l2 h).filter _)

theorem twoPairKickers_eq (l1 l2 : List Card) (h : l1.Perm l2) :
    twoPairKickers l1 = twoPairKickers l2 := by
  unfold twoPairKickers
  simp only [pairsList_eq l1 l2 h]
  exact sortDesc_eq_of_perm _ _ ((rankKeys_perm l1 l2 h).filter _)

theorem flushRanks_eq (l1 l2 : List Card) (h : l1.Perm l2) (s : Suit) :
    flushRanks l1 s = flushRanks l2 s := by
  unfold flushRanks
  exact sortDesc_eq_of_perm _ _ ((h.filter _).map _)

theorem highRanks_eq (l1 l2 : List Card) (h : l1.Perm l2) : highRanks l1 = highRanks l2 := by
  unfold highRanks
  exact sortDesc_eq_of_perm _ _ (h.map _)

theorem straightFlushCards_len_eq (l1 l2 : List Card) (h : l1.Perm l2) (s : Suit) (hh : Nat) :
    (straightFlushCards l1 s hh).length = (straightFlushCards l2 s hh).length := by
  unfold straightFlushCards
  exact ((h.filter _).filter _).length_eq

theorem sfResult_eq (l1 l2 : List Card) (h : l1.Perm l2) (h7 : l1.length ≤ 7) :
    sfResult l1 = sfResult l2 := by
  unfold sfResult
  rw [flushSuit_eq l1 l2 h h7, straightHigh_eq l1 l2 h]
  rcases flushSuit l2 with _ | s <;> rcases straightHigh l2 with _ | hh <;> simp
  rw [straightFlushCards_len_eq l1 l2 h s hh]

/-- C4 (amended): `evaluate` is total and deterministic (it is a pure
function of the card list), and it is symmetric under input reordering
whenever at most one rank occurs exactly three times - which is always the
case for 5-card inputs.  With two ranks of exactly three cards (possible
only with 6 or 7 cards) the result depends on the input order, because the
`three_of_a_kind` loop keeps the LAST dict key with count 3; see the
counterexample. -/
theorem c4_perm_invariant (l1 l2 : List Card) (h : l1.Perm l2)
    (_h5 : 5 ≤ l1.length) (h7 : l1.length ≤ 7)
    (h3 : ∀ r1 ∈ rankKeys l1, ∀ r2 ∈ rankKeys l1,
      rankCount l1 r1 = 3 → rankCount l1 r2 = 3 → r1 = r2) :
    evaluateHand l1 = evaluateHand l2 := by
  unfold evaluateHand
  simp only [← h.length_eq, ← sfResult_eq l1 l2 h h7, ← fourOfAKind_eq l1 l2 h h7,
    ← threeOfAKind_eq l1 l2 h h3, ← pairsList_eq l1 l2 h, ← flushSuit_eq l1 l2 h h7,
    ← straightHigh_eq l1 l2 h, ← kickersExcept_eq l1 l2 h, ← twoPairKickers_eq l1 l2 h,
    ← flushRanks_eq l1 l2 h, ← highRanks_eq l1 l2 h]

/-- Witness for C4: the royal flush evaluates identically to its reversal
(a 5-card input, so at most one rank occurs three times). -/
theorem c4_perm_invariant_w :
    evaluateHand royalFlush =
      evaluateHand [⟨10, .spades⟩, ⟨11, .spades⟩, ⟨12, .spades⟩, ⟨13, .spades⟩,
        ⟨14, .spades⟩] :=
  c4_perm_invariant royalFlush
    [⟨10, .spades⟩, ⟨11, .spades⟩, ⟨12, .spades⟩, ⟨13, .spades⟩, ⟨14, .spades⟩]
    (by decide) (by decide) (by decide) (by decide)

/-- C1: the royal flush scores category 9, and the OFFSUIT wheel scores
category 4 with kicker list [5] (high card 5, not 14), as the claim states;
but the SUITED wheel, which the claim (and the category list documented
in the evaluator, 8 = straight flush) requires to score category 8 with kicker
5, is scored by the code as a mere flush (5, [14, 5, 4, 3, 2]): the
straight-flush window [straight_high - 4, straight_high] = [1, 5] never
contains the Ace, which is stored as 14. -/
theorem c1_wheel_eval :
    evaluateHand royalFlush = (9, [14]) ∧
    evaluateHand suitedWheel = (5, [14, 5, 4, 3, 2]) ∧
    evaluateHand offsuitWheel = (4, [5]) := by decide

/-- C4 counterexample: `evaluate` is NOT symmetric under input reordering.
The six-card input with two three-of-a-kinds (aces and kings) evaluates to
(3, [13, 14]) when the aces come first but to (3, [14, 13]) when the kings
come first, because the `three_of_a_kind` loop keeps the LAST dict key with
count 3 (handEvaluator.py lines 87-89, no break). -/
theorem c4_perm_cex :
    twoTripsA.Perm twoTripsB ∧
    evaluateHand twoTripsA = (3, [13, 14]) ∧
    evaluateHand twoTripsB = (3, [14, 13]) ∧
    evaluateHand twoTripsA ≠ evaluateHand twoTripsB := by decide

/-- C2 counterexample: pot distribution with an empty winner set does NOT
leave the pot at 0 - `_distribute_pot` returns early (texasHoldem.py lines
266-268) and the pot keeps its pre-distribution value (here 30). -/
theorem c2_empty_winners_cex :
    (distributePot gC7 []).pot = 30 ∧ (distributePot gC7 []).pot ≠ 0 := by decide

/-- C6 counterexample: after posting blinds the current bet of the table is NOT
the larger of the two actual postings.  In `gC6` the small blind posts 10
(seat 1: 100 -> 90 chips) and the short big blind posts only 5 (seat 2:
5 -> 0 chips, all-in), yet `current_bet` ends at 5, the BIG-BLIND posting,
not the larger posting 10 (texasHoldem.py line 89 overwrites line 84). -/
theorem c6_current_bet_cex :
    ((postBlinds gC6).players.getD 1 default).chips = 90 ∧
    ((postBlinds gC6).players.getD 2 default).chips = 0 ∧
    ((postBlinds gC6).players.getD 2 default).all_in = true ∧
    (postBlinds gC6).current_bet = 5 ∧
    (postBlinds gC6).current_bet ≠ max 10 5 := by decide

/-- C7 counterexample: in the claimed scenario (pot 30, current bet 0, min
raise 20, seat A raises 50) the engine sets `min_raise` to the FULL raise
amount 50 (`self.min_raise = amount`, texasHoldem.py line 208), not to 20 as
the claim states. -/
theorem c7_min_raise_cex :
    (executeAction gC7 0 Action.raise 50).min_raise = 50 ∧
    (executeAction gC7 0 Action.raise 50).min_raise ≠ 20 := by decide

/-- C7 as amended: the Raise of 50 by seat A leaves the wager of A at 50, the current
bet at 50, the pot at 80, and the min-raise at 50 (the full raise amount);
the Call of 50 by seat B with only 30 chips is converted into an all-in call of
30, leaving the pot at 110. -/
theorem c7_scenario :
    ((executeAction gC7 0 Action.raise 50).players.getD 0 default).current_bet = 50 ∧
    (executeAction gC7 0 Action.raise 50).current_bet = 50 ∧
    (executeAction gC7 0 Action.raise 50).min_raise = 50 ∧
    (executeAction gC7 0 Action.raise 50).pot = 80 ∧
    ((executeAction (executeAction gC7 0 Action.raise 50) 1 Action.call 0).players.getD 1
        default).chips = 0 ∧
    ((executeAction (executeAction gC7 0 Action.raise 50) 1 Action.call 0).players.getD 1
        default).current_bet = 30 ∧
    ((executeAction (executeAction gC7 0 Action.raise 50) 1 Action.call 0).players.getD 1
        default).all_in = true ∧
    (executeAction (executeAction gC7 0 Action.raise 50) 1 Action.call 0).pot = 110 := by
  decide

/-- C3 counterexample: a sequence of legal actions with NO raise - the table
bet stays 20 throughout, the ALL_IN of seat 1 is a short calling all-in, and no
RAISE action occurs - yet the round does not terminate after one full pass
(the guard is still true after 3 iterations) and runs for 4 iterations,
because lines 163-164 record ANY all-in as the last aggressor. -/
theorem c3_allin_call_extends_cex :
    (dec3 0).1 = Action.call ∧ (dec3 1).1 = Action.all_in ∧
    (dec3 2).1 = Action.call ∧ (dec3 3).1 = Action.check ∧
    g3.current_bet = 20 ∧
    (iterRound dec3 3 (initRound g3 0) 1).g.current_bet = 20 ∧
    (iterRound dec3 3 (initRound g3 0) 2).g.current_bet = 20 ∧
    (iterRound dec3 3 (initRound g3 0) 3).g.current_bet = 20 ∧
    whileCond 3 (iterRound dec3 3 (initRound g3 0) 3) = true ∧
    (runRound dec3 3 10 (initRound g3 0)).2 = 4 := by decide

/-- C9 counterexample: `compareScores` is not a total order and A >= B >= C
does not imply A >= C across kicker lists of different lengths: zip
truncation makes (1, [14, 2]) and (1, [14, 3]) both tied with (1, [14])
while (1, [14, 2]) < (1, [14, 3]). -/
theorem c9_trans_cex :
    0 ≤ compareHands (1, [14, 2]) (1, [14]) ∧
    0 ≤ compareHands (1, [14]) (1, [14, 3]) ∧
    compareHands (1, [14, 2]) (1, [14, 3]) = -1 ∧
    ¬ 0 ≤ compareHands (1, [14, 2]) (1, [14, 3]) := by decide

end Texas
